import Mathlib

/-!
Shallow embedding of `dev-debug-helper` (src/index.ts).

JavaScript strings are modelled as `List Char` (`JSString`); `null`/`undefined`
and JS truthiness of strings are modelled with `Option JSString` where
`none` is null/undefined and the empty list is the falsy empty string.
The React fiber ancestor chain reached through the `return` link is modelled
as a function `Nat → Option FiberNode` (index 0 is the fiber attached to the
element); this also represents infinite or cyclic chains.
`localStorage` is modelled by the value stored under the configured key,
`Option JSString` (`none` = key absent).
-/

abbrev JSString := List Char

/-- JS `a || b` on string-or-null values: `a` when truthy, else `b`. -/
def jsOrStr (a b : Option JSString) : Option JSString :=
  match a with
  | some s => if s.isEmpty then b else some s
  | none => b

/-- JS `x || null` on a string-or-null value. -/
def jsOrNull (a : Option JSString) : Option JSString :=
  match a with
  | some s => if s.isEmpty then none else some s
  | none => none

/-- Boolean prefix test on character lists. -/
def isPre : JSString → JSString → Bool
  | [], _ => true
  | _ :: _, [] => false
  | a :: as, b :: bs => a == b && isPre as bs

/-- JS `String.prototype.indexOf`: index of the first occurrence of `pat`,
`none` for `-1`. -/
def indexOfAux (pat : JSString) : JSString → Option Nat
  | [] => if isPre pat [] then some 0 else none
  | c :: rest =>
    if isPre pat (c :: rest) then some 0
    else (indexOfAux pat rest).map (· + 1)

/-- JS `String.prototype.lastIndexOf` for a single character, `none` for `-1`. -/
def lastIndexOf (c : Char) : JSString → Option Nat
  | [] => none
  | d :: rest =>
    match lastIndexOf c rest with
    | some i => some (i + 1)
    | none => if d == c then some 0 else none

/-- The `'/src/'` marker searched for in `getReactSourceInfo`. -/
def srcPat : JSString := "/src/".data

/-- JS `Number.prototype.toString` on a line number. -/
def numToChars (n : Nat) : JSString := (Nat.repr n).data

/-- Path normalization inside `getReactSourceInfo` (src/index.ts:133-142):
keep everything from the first `/src/` segment onward (starting at `src/`),
else keep only what follows the last `/`. -/
def normalizeFilePath (fileName : JSString) : JSString :=
  match indexOfAux srcPat fileName with
  | some srcIndex => fileName.drop (srcIndex + 1)
  | none =>
    match lastIndexOf '/' fileName with
    | some lastSlash => fileName.drop (lastSlash + 1)
    | none => fileName

/-- `fiber._debugSource`: original-source debug info. -/
structure DebugSource where
  fileName : Option JSString
  lineNumber : Option Nat
deriving DecidableEq

/-- `fiber.type`: either a primitive tag (a JS string) or a named construct
(function/class/etc.) carrying optional `displayName` and `name`. -/
inductive FiberType where
  | str : JSString → FiberType
  | named : Option JSString → Option JSString → FiberType
deriving DecidableEq

/-- One fiber node; the parent (`return`) link lives in the ambient chain. -/
structure FiberNode where
  debugSource : Option DebugSource
  type : Option FiberType
deriving DecidableEq

/-- The `result : Partial<ElementInfo>` accumulated by `getReactSourceInfo`. -/
structure SourceInfo where
  filePath : Option JSString
  lineNumber : Option JSString
  componentName : Option JSString
deriving DecidableEq

def emptySourceInfo : SourceInfo := ⟨none, none, none⟩

/-- JS truthiness of `fiber.type` (objects truthy, empty string falsy). -/
def typeTruthy : FiberType → Bool
  | .str s => !s.isEmpty
  | .named _ _ => true

/-- `fiber.type.displayName || fiber.type.name` (a JS string has neither). -/
def typeNameOf : FiberType → Option JSString
  | .str _ => none
  | .named d n => jsOrStr d n

def isStrType : FiberType → Bool
  | .str _ => true
  | .named _ _ => false

/-- The `_debugSource` step of the walk body (src/index.ts:126-147). -/
def processDebugSource (src : Option DebugSource) (acc : SourceInfo) : SourceInfo :=
  match src with
  | none => acc
  | some source =>
    match source.fileName with
    | some f =>
      if !f.isEmpty then
        { acc with
          filePath := some (normalizeFilePath f)
          lineNumber := Option.map numToChars source.lineNumber }
      else acc
    | none => acc

/-- The component-name step of the walk body (src/index.ts:150-158). -/
def processType (t : Option FiberType) (acc : SourceInfo) : SourceInfo :=
  match t with
  | none => acc
  | some ty =>
    if typeTruthy ty then
      match typeNameOf ty with
      | some typeName =>
        if !typeName.isEmpty && acc.componentName.isNone then
          if !isStrType ty then { acc with componentName := some typeName }
          else acc
        else acc
      | none => acc
    else acc

/-- One iteration of the walk body on a fiber node. -/
def processFiber (fb : FiberNode) (acc : SourceInfo) : SourceInfo :=
  processType fb.type (processDebugSource fb.debugSource acc)

/-- JS truthiness of a string-or-null value. -/
def jsTruthy (a : Option JSString) : Bool :=
  match a with
  | some s => !s.isEmpty
  | none => false

/-- The early-exit condition `result.filePath && result.componentName`
(JS truthiness: a normalized path can be the falsy empty string). -/
def bothFound (acc : SourceInfo) : Bool :=
  jsTruthy acc.filePath && jsTruthy acc.componentName

/-- The `while (fiber && maxDepth > 0)` loop of `getReactSourceInfo`
(src/index.ts:124-167), walking the ancestor chain with fuel `maxDepth`. -/
def walkFiber (chain : Nat → Option FiberNode) : Nat → Nat → SourceInfo → SourceInfo
  | _, 0, acc => acc
  | i, Nat.succ fuel, acc =>
    match chain i with
    | none => acc
    | some fb =>
      let acc' := processFiber fb acc
      if bothFound acc' then acc'
      else walkFiber chain (i + 1) fuel acc'

/-- The component name a fiber type would contribute: the truthy
`displayName || name` of a named non-primitive construct, `none` for
primitive tags, nameless or absent types. -/
def nameContrib (t : Option FiberType) : Option JSString :=
  match t with
  | none => none
  | some ty =>
    if typeTruthy ty then
      match typeNameOf ty with
      | some typeName =>
        if !typeName.isEmpty && !isStrType ty then some typeName else none
      | none => none
    else none

/-- The (normalized file path, line-number string) a debug source would
contribute: present exactly when it exposes a non-empty file name. -/
def debugContrib (src : Option DebugSource) : Option (JSString × Option JSString) :=
  match src with
  | none => none
  | some source =>
    match source.fileName with
    | some f =>
      if !f.isEmpty then
        some (normalizeFilePath f, Option.map numToChars source.lineNumber)
      else none
    | none => none

/-- Name contribution of a chain entry. -/
def nodeName (x : Option FiberNode) : Option JSString :=
  match x with
  | some fb => nameContrib fb.type
  | none => none

/-- Debug contribution of a chain entry. -/
def nodeDebug (x : Option FiberNode) : Option (JSString × Option JSString) :=
  match x with
  | some fb => debugContrib fb.debugSource
  | none => none

/-- The first name contribution among the `k` ancestors starting at index
`i`: earlier ancestors take precedence. -/
def firstNameFrom (chain : Nat → Option FiberNode) : Nat → Nat → Option JSString
  | _, 0 => none
  | i, Nat.succ k =>
    match nodeName (chain i) with
    | some nm => some nm
    | none => firstNameFrom chain (i + 1) k

/-- The last debug contribution among the `k` ancestors starting at index
`i`: later ancestors take precedence. -/
def lastDebugFrom (chain : Nat → Option FiberNode) :
    Nat → Nat → Option (JSString × Option JSString)
  | _, 0 => none
  | i, Nat.succ k =>
    match lastDebugFrom chain (i + 1) k with
    | some c => some c
    | none => nodeDebug (chain i)

/-- A DOM element: `className` is `none` when not a string (e.g. SVG),
`fiberChain` is `none` when no `__reactFiber$...` key is attached, and
`some chain` with `chain 0 = none` when the key holds a null fiber. -/
structure HTMLElement where
  className : Option JSString
  tagName : JSString
  fiberChain : Option (Nat → Option FiberNode)

/-- `getReactSourceInfo` (src/index.ts:105-174). -/
def getReactSourceInfo (element : HTMLElement) : SourceInfo :=
  match element.fiberChain with
  | none => emptySourceInfo
  | some chain => walkFiber chain 0 20 emptySourceInfo

/-- The `ElementInfo` interface (src/index.ts:39-45). -/
structure ElementInfo where
  className : JSString
  filePath : Option JSString
  lineNumber : Option JSString
  componentName : Option JSString
  tagName : JSString
deriving DecidableEq

/-- `getElementInfo` (src/index.ts:179-195). -/
def getElementInfo (element : HTMLElement) : Option ElementInfo :=
  match element.className with
  | none => none
  | some className =>
    if className.isEmpty then none
    else
      let reactInfo := getReactSourceInfo element
      some
        { className := className
          tagName := element.tagName.map Char.toLower
          filePath := jsOrNull reactInfo.filePath
          lineNumber := jsOrNull reactInfo.lineNumber
          componentName := jsOrNull reactInfo.componentName }

/-- `DEFAULT_CONFIG.formatCopyText` (src/index.ts:52-66). -/
def formatCopyText (info : ElementInfo) : JSString :=
  (match info.filePath with
   | some fp =>
     if !fp.isEmpty then
       "// ".data ++ fp ++
         (match info.lineNumber with
          | some ln => if !ln.isEmpty then ":".data ++ ln else []
          | none => []) ++
         "\n".data
     else []
   | none => []) ++
  (match info.componentName with
   | some cn =>
     if !cn.isEmpty then "// Component: ".data ++ cn ++ "\n".data else []
   | none => []) ++
  "className=\"".data ++ info.className ++ "\"".data

/-- The fixed hint line prepended to every tooltip (src/index.ts:340). -/
def hintLine : JSString := "[Ctrl+우클릭: 복사]".data

/-- `mouseMoveHandler` (src/index.ts:321-341), reduced to the text it shows:
`some text` when the tooltip is shown with `text`, `none` when hidden. -/
def mouseMoveTooltip (isActive ctrlPressed : Bool)
    (formatTooltip : ElementInfo → JSString)
    (target : Option HTMLElement) : Option JSString :=
  if !(isActive && ctrlPressed) then none
  else
    match target with
    | none => none
    | some el =>
      match getElementInfo el with
      | none => none
      | some info => some (hintLine ++ "\n".data ++ formatTooltip info)

/-- Outcome of a context-menu event: whether the default menu was suppressed
(`e.preventDefault()` called) and the text sent to the clipboard. -/
structure ContextMenuOutcome where
  defaultPrevented : Bool
  copiedText : Option JSString
deriving DecidableEq

/-- `contextMenuHandler` (src/index.ts:343-361). -/
def contextMenuHandler (isActive ctrlPressed : Bool)
    (formatCopy : ElementInfo → JSString)
    (target : Option HTMLElement) : ContextMenuOutcome :=
  if !(isActive && ctrlPressed) then ⟨false, none⟩
  else
    match target with
    | none => ⟨false, none⟩
    | some el =>
      match getElementInfo el with
      | none => ⟨false, none⟩
      | some info => ⟨true, some (formatCopy info)⟩

/-- Session state: the `localStorage` value under the configured key
(`none` = key absent) and the in-memory `isActive` flag. -/
structure DebugState where
  storage : Option JSString
  isActive : Bool
deriving DecidableEq

/-- `isDebugEnabled` (src/index.ts:387-389). -/
def isDebugEnabled (storage : Option JSString) : Bool :=
  storage == some "true".data

/-- JS `Boolean.prototype.toString`. -/
def boolToChars (b : Bool) : JSString :=
  if b then "true".data else "false".data

/-- `setDebugEnabled` (src/index.ts:394-411), state part only. -/
def setDebugEnabled (enabled : Bool) (_st : DebugState) : DebugState :=
  { storage := some (boolToChars enabled), isActive := enabled }

/-- `toggleDebugMode` (src/index.ts:416-420): new state and returned value. -/
def toggleDebugMode (st : DebugState) : DebugState × Bool :=
  let newState := !isDebugEnabled st.storage
  (setDebugEnabled newState st, newState)

/-! Concrete elements and chains used in counterexamples and witnesses. -/

/-- A plain element with class `btn`, tag `DIV`, and no fiber attached. -/
def elDiv : HTMLElement :=
  { className := some "btn".data, tagName := "DIV".data, fiberChain := none }

/-- The `ElementInfo` produced for `elDiv`. -/
def infoDiv : ElementInfo :=
  { className := "btn".data, filePath := none, lineNumber := none
    componentName := none, tagName := "div".data }

/-- An element whose class string is empty. -/
def elNoClass : HTMLElement :=
  { className := some [], tagName := "DIV".data, fiberChain := none }

/-- A trivial formatter. -/
def fmtNil : ElementInfo → JSString := fun _ => []

/-- The empty ancestor chain. -/
def nilChain : Nat → Option FiberNode := fun _ => none

/-- An infinite chain of nodes carrying neither debug info nor a type. -/
def inertChain : Nat → Option FiberNode := fun _ => some ⟨none, none⟩

/-- A chain that is empty below index 20 but not above it. -/
def chainW : Nat → Option FiberNode :=
  fun j => if j < 20 then none else some ⟨none, none⟩

/-- A node carrying both debug info and a component name. -/
def nodeBoth : FiberNode :=
  ⟨some ⟨some "a".data, some 3⟩, some (.named (some "Foo".data) none)⟩

/-- An infinite (cyclic) chain repeating `nodeBoth`. -/
def chainBoth : Nat → Option FiberNode := fun _ => some nodeBoth

/-- First ancestor: debug info for file `A`, line 1, no component name. -/
def nodeA : FiberNode :=
  ⟨some ⟨some "A".data, some 1⟩, none⟩

/-- Second ancestor: debug info for file `B`, line 2, named component `Foo`. -/
def nodeB : FiberNode :=
  ⟨some ⟨some "B".data, some 2⟩, some (.named none (some "Foo".data))⟩

/-- The chain `nodeA` then `nodeB`. -/
def chainC2 : Nat → Option FiberNode :=
  fun i => if i = 0 then some nodeA else if i = 1 then some nodeB else none

/-- An element whose fiber chain is `chainC2`. -/
def elemC2 : HTMLElement :=
  { className := some "x".data, tagName := "DIV".data, fiberChain := some chainC2 }

/-- A session state whose storage key was never written. -/
def stNone : DebugState := ⟨none, false⟩

/-- A file name containing a `/src/` segment. -/
def pathWithSrc : JSString := "a/src/b.tsx".data

/-- A file name without a `/src/` segment. -/
def pathNoSrc : JSString := "a/b.tsx".data

/-- The tooltip text shown for `elDiv` under the trivial formatter. -/
def textW : JSString := hintLine ++ "\n".data

/-! Helper lemmas. -/

theorem isPre_iff (pat s : JSString) : isPre pat s = true ↔ ∃ t, s = pat ++ t := by
  induction pat generalizing s with
  | nil => simp [isPre]
  | cons a as ih =>
    cases s with
    | nil => simp [isPre]
    | cons b bs =>
      simp only [isPre, Bool.and_eq_true, beq_iff_eq]
      constructor
      · rintro ⟨rfl, hpre⟩
        obtain ⟨t, rfl⟩ := (ih bs).mp hpre
        exact ⟨t, rfl⟩
      · rintro ⟨t, ht⟩
        rw [List.cons_append] at ht
        cases ht
        exact ⟨rfl, (ih _).mpr ⟨t, rfl⟩⟩

theorem indexOfAux_some (pat s : JSString) (i : Nat) :
    indexOfAux pat s = some i →
    (∃ t, s.drop i = pat ++ t) ∧ ∀ j, j < i → ¬∃ t, s.drop j = pat ++ t := by
  induction s generalizing i with
  | nil =>
    intro h
    simp only [indexOfAux] at h
    by_cases hp : isPre pat [] = true
    · rw [if_pos hp] at h
      cases h
      exact ⟨(isPre_iff _ _).mp hp, fun j hj => absurd hj (Nat.not_lt_zero j)⟩
    · rw [if_neg hp] at h
      cases h
  | cons c rest ih =>
    intro h
    simp only [indexOfAux] at h
    by_cases hp : isPre pat (c :: rest) = true
    · rw [if_pos hp] at h
      cases h
      exact ⟨(isPre_iff _ _).mp hp, fun j hj => absurd hj (Nat.not_lt_zero j)⟩
    · rw [if_neg hp] at h
      obtain ⟨i', hi', rfl⟩ := Option.map_eq_some'.mp h
      obtain ⟨⟨t, ht⟩, hmin⟩ := ih i' hi'
      refine ⟨⟨t, ht⟩, ?_⟩
      intro j hj
      cases j with
      | zero =>
        intro hex
        exact hp ((isPre_iff _ _).mpr hex)
      | succ k =>
        exact hmin k (Nat.lt_of_succ_lt_succ hj)

theorem indexOfAux_none (pat s : JSString) :
    indexOfAux pat s = none → ∀ j, ¬∃ t, s.drop j = pat ++ t := by
  induction s with
  | nil =>
    intro h j
    simp only [indexOfAux] at h
    by_cases hp : isPre pat [] = true
    · rw [if_pos hp] at h
      cases h
    · rw [if_neg hp] at h
      intro hex
      rw [List.drop_nil] at hex
      exact hp ((isPre_iff _ _).mpr hex)
  | cons c rest ih =>
    intro h j
    simp only [indexOfAux] at h
    by_cases hp : isPre pat (c :: rest) = true
    · rw [if_pos hp] at h
      cases h
    · rw [if_neg hp] at h
      have hrest : indexOfAux pat rest = none := by
        cases hr : indexOfAux pat rest with
        | none => rfl
        | some i => rw [hr] at h; cases h
      cases j with
      | zero =>
        intro hex
        exact hp ((isPre_iff _ _).mpr hex)
      | succ k =>
        exact ih hrest k

theorem lastIndexOf_none (c : Char) (s : JSString) :
    lastIndexOf c s = none → c ∉ s := by
  induction s with
  | nil => intro _ h; cases h
  | cons d rest ih =>
    intro h
    simp only [lastIndexOf] at h
    cases hr : lastIndexOf c rest with
    | some i => rw [hr] at h; cases h
    | none =>
      rw [hr] at h
      by_cases hd : (d == c) = true
      · rw [if_pos hd] at h; cases h
      · rw [if_neg hd] at h
        intro hmem
        cases hmem with
        | head => exact hd (beq_self_eq_true c)
        | tail _ hm => exact ih hr hm

theorem lastIndexOf_some (c : Char) (s : JSString) (j : Nat) :
    lastIndexOf c s = some j →
    s.drop j = c :: s.drop (j + 1) ∧ c ∉ s.drop (j + 1) := by
  induction s generalizing j with
  | nil => intro h; cases h
  | cons d rest ih =>
    intro h
    simp only [lastIndexOf] at h
    cases hr : lastIndexOf c rest with
    | some i =>
      rw [hr] at h
      cases h
      obtain ⟨h1, h2⟩ := ih i hr
      exact ⟨h1, h2⟩
    | none =>
      rw [hr] at h
      by_cases hd : (d == c) = true
      · rw [if_pos hd] at h
        cases h
        rw [List.drop_zero]
        have : d = c := beq_iff_eq.mp hd
        subst this
        exact ⟨rfl, lastIndexOf_none d rest hr⟩
      · rw [if_neg hd] at h
        cases h

theorem processDebugSource_componentName (src : Option DebugSource) (acc : SourceInfo) :
    (processDebugSource src acc).componentName = acc.componentName := by
  cases src with
  | none => rfl
  | some source =>
    cases hf : source.fileName with
    | none => simp [processDebugSource, hf]
    | some f =>
      by_cases he : f.isEmpty
      · simp [processDebugSource, hf, he]
      · simp [processDebugSource, hf, he]

theorem processType_componentName_some (t : Option FiberType) (acc : SourceInfo)
    (nm : JSString) (h : acc.componentName = some nm) :
    (processType t acc).componentName = some nm := by
  cases t with
  | none => exact h
  | some ty =>
    simp only [processType]
    by_cases ht : typeTruthy ty = true
    · rw [if_pos ht]
      cases hn : typeNameOf ty with
      | none => exact h
      | some typeName =>
        have : acc.componentName.isNone = false := by rw [h]; rfl
        simp [this, h]
    · rw [if_neg ht]
      exact h

theorem processType_filePath (t : Option FiberType) (acc : SourceInfo) :
    (processType t acc).filePath = acc.filePath ∧
    (processType t acc).lineNumber = acc.lineNumber := by
  cases t with
  | none => exact ⟨rfl, rfl⟩
  | some ty =>
    simp only [processType]
    repeat' split
    all_goals exact ⟨rfl, rfl⟩

theorem walkFiber_congr (chain chain' : Nat → Option FiberNode) :
    ∀ (fuel i : Nat) (acc : SourceInfo),
    (∀ j, i ≤ j → j < i + fuel → chain j = chain' j) →
    walkFiber chain i fuel acc = walkFiber chain' i fuel acc := by
  intro fuel
  induction fuel with
  | zero => intro i acc _; rfl
  | succ n ih =>
    intro i acc hagree
    have h0 : chain i = chain' i :=
      hagree i (Nat.le_refl i) (Nat.lt_add_of_pos_right (Nat.succ_pos n))
    simp only [walkFiber, ← h0]
    cases chain i with
    | none => rfl
    | some fb =>
      by_cases hb : bothFound (processFiber fb acc) = true
      · simp [hb]
      · simp only [hb, if_neg, Bool.false_eq_true, not_false_eq_true]
        exact ih (i + 1) (processFiber fb acc) fun j hj1 hj2 =>
          hagree j (Nat.le_of_succ_le hj1) (by omega)

theorem walkFiber_inert (chain : Nat → Option FiberNode)
    (h : ∀ i fb, chain i = some fb → fb.debugSource = none ∧ fb.type = none) :
    ∀ (fuel i : Nat) (acc : SourceInfo), walkFiber chain i fuel acc = acc := by
  intro fuel
  induction fuel with
  | zero => intro i acc; rfl
  | succ n ih =>
    intro i acc
    simp only [walkFiber]
    cases hc : chain i with
    | none => rfl
    | some fb =>
      obtain ⟨h1, h2⟩ := h i fb hc
      have hpf : processFiber fb acc = acc := by
        simp [processFiber, h1, h2, processDebugSource, processType]
      simp only [hpf]
      by_cases hb : bothFound acc = true
      · rw [if_pos hb]
      · rw [if_neg hb]
        exact ih (i + 1) acc

/-- C4: the default copy-text formatter on
`filePath "a/b.tsx", lineNumber "10", componentName "Foo", className "x y"`
yields exactly `// a/b.tsx:10`, newline, `// Component: Foo`, newline,
`className="x y"`. -/
theorem formatCopyText_default_example :
    formatCopyText
      { className := "x y".data
        filePath := some "a/b.tsx".data
        lineNumber := some "10".data
        componentName := some "Foo".data
        tagName := "div".data } =
      "// a/b.tsx:10\n// Component: Foo\nclassName=\"x y\"".data := by
  rfl

/-- C9: `isDebugEnabled` is `true` exactly when the stored value is the
string `true`; in particular an absent key yields `false`. -/
theorem isDebugEnabled_true_iff :
    (∀ storage : Option JSString,
      isDebugEnabled storage = true ↔ storage = some "true".data) ∧
    isDebugEnabled none = false := by
  constructor
  · intro storage
    simp [isDebugEnabled]
  · rfl

/-- C1: `getElementInfo` returns `none` exactly when the element has no
non-empty style-class string; a `some` result carries the element's class
string (never empty) and the lower-cased tag name. -/
theorem getElementInfo_spec (el : HTMLElement) :
    (getElementInfo el = none ↔ el.className = none ∨ el.className = some []) ∧
    (∀ info, getElementInfo el = some info →
      el.className = some info.className ∧ info.className ≠ [] ∧
      info.tagName = el.tagName.map Char.toLower) := by
  constructor
  · cases h : el.className with
    | none => simp [getElementInfo, h]
    | some cls =>
      cases cls with
      | nil => simp [getElementInfo, h]
      | cons c cs => simp [getElementInfo, h]
  · intro info hinfo
    cases h : el.className with
    | none => simp [getElementInfo, h] at hinfo
    | some cls =>
      cases cls with
      | nil => simp [getElementInfo, h] at hinfo
      | cons c cs =>
        simp only [getElementInfo, h, List.isEmpty_cons, if_neg,
          Bool.false_eq_true, not_false_eq_true, Option.some.injEq] at hinfo
        subst hinfo
        exact ⟨rfl, List.cons_ne_nil c cs, rfl⟩

/-- C1 witness: on a concrete element with class `btn` and tag `DIV`. -/
theorem getElementInfo_spec_witness :
    elDiv.className = some infoDiv.className ∧ infoDiv.className ≠ [] ∧
    infoDiv.tagName = elDiv.tagName.map Char.toLower :=
  (getElementInfo_spec elDiv).2 infoDiv rfl

/-- C7: extraction degrades to all-null fields on absent or malformed fiber
structures (no fiber key, null fiber, or nodes without debug or type fields)
instead of failing; `getReactSourceInfo` is total on every element. -/
theorem getReactSourceInfo_degrades (cls : Option JSString) (tag : JSString) :
    getReactSourceInfo ⟨cls, tag, none⟩ = emptySourceInfo ∧
    (∀ chain : Nat → Option FiberNode, chain 0 = none →
      getReactSourceInfo ⟨cls, tag, some chain⟩ = emptySourceInfo) ∧
    (∀ chain : Nat → Option FiberNode,
      (∀ i fb, chain i = some fb → fb.debugSource = none ∧ fb.type = none) →
      getReactSourceInfo ⟨cls, tag, some chain⟩ = emptySourceInfo) := by
  refine ⟨rfl, ?_, ?_⟩
  · intro chain h0
    simp only [getReactSourceInfo, walkFiber, h0]
  · intro chain h
    exact walkFiber_inert chain h 20 0 emptySourceInfo

/-- C7 witness: a null fiber and an infinite chain of field-less nodes both
give the all-null result. -/
theorem getReactSourceInfo_degrades_witness :
    getReactSourceInfo ⟨some "btn".data, "DIV".data, some nilChain⟩ =
      emptySourceInfo ∧
    getReactSourceInfo ⟨some "btn".data, "DIV".data, some inertChain⟩ =
      emptySourceInfo := by
  constructor
  · exact (getReactSourceInfo_degrades (some "btn".data) "DIV".data).2.1
      nilChain rfl
  · exact (getReactSourceInfo_degrades (some "btn".data) "DIV".data).2.2
      inertChain (fun i fb h => by cases h; exact ⟨rfl, rfl⟩)

/-- C8: the ancestor walk inspects at most the first 20 links of the chain
(so it is insensitive to anything beyond depth 20, even on an infinite or
cyclic chain), and stops as soon as both the file path and the component
name are found. -/
theorem walkFiber_bounded_early_stop :
    (∀ (cls : Option JSString) (tag : JSString)
       (chain chain' : Nat → Option FiberNode),
      (∀ j, j < 20 → chain j = chain' j) →
      getReactSourceInfo ⟨cls, tag, some chain⟩ =
        getReactSourceInfo ⟨cls, tag, some chain'⟩) ∧
    (∀ (chain : Nat → Option FiberNode) (i fuel : Nat) (acc : SourceInfo)
       (fb : FiberNode),
      chain i = some fb → bothFound (processFiber fb acc) = true →
      walkFiber chain i (fuel + 1) acc = processFiber fb acc) := by
  constructor
  · intro cls tag chain chain' hagree
    simp only [getReactSourceInfo]
    exact walkFiber_congr chain chain' 20 0 emptySourceInfo
      fun j _ hj => hagree j (by omega)
  · intro chain i fuel acc fb hc hb
    simp only [walkFiber, hc]
    rw [if_pos hb]

/-- C8 witness: two chains agreeing below depth 20 give equal results, and
on an infinite chain whose head already yields both pieces the walk stops
at the head. -/
theorem walkFiber_bounded_early_stop_witness :
    getReactSourceInfo ⟨some "btn".data, "DIV".data, some nilChain⟩ =
      getReactSourceInfo ⟨some "btn".data, "DIV".data, some chainW⟩ ∧
    walkFiber chainBoth 0 (19 + 1) emptySourceInfo =
      processFiber nodeBoth emptySourceInfo := by
  constructor
  · exact walkFiber_bounded_early_stop.1 (some "btn".data) "DIV".data
      nilChain chainW (by decide)
  · exact walkFiber_bounded_early_stop.2 chainBoth 0 19 emptySourceInfo
      nodeBoth rfl (by decide)

/-- C6: the default context menu is suppressed exactly when the helper is
active, the modifier is held, and extraction on the event target is
non-null; otherwise (inactive, modifier up, no target, or null extraction)
the handler leaves the default menu and performs no copy. -/
theorem contextMenuHandler_spec (isActive ctrlPressed : Bool)
    (formatCopy : ElementInfo → JSString) (target : Option HTMLElement) :
    ((contextMenuHandler isActive ctrlPressed formatCopy target).defaultPrevented
        = true ↔
      isActive = true ∧ ctrlPressed = true ∧
        ∃ el info, target = some el ∧ getElementInfo el = some info) ∧
    (¬(isActive = true ∧ ctrlPressed = true) →
      contextMenuHandler isActive ctrlPressed formatCopy target = ⟨false, none⟩) ∧
    (∀ el, target = some el → getElementInfo el = none →
      contextMenuHandler isActive ctrlPressed formatCopy target = ⟨false, none⟩) := by
  refine ⟨?_, ?_, ?_⟩
  · cases isActive <;> cases ctrlPressed <;>
      simp only [contextMenuHandler, Bool.and_self, Bool.and_true, Bool.and_false,
        Bool.not_true, Bool.not_false, if_true, if_false]
    · simp
    · simp
    · simp
    · cases target with
      | none => simp
      | some el =>
        cases h : getElementInfo el with
        | none => simp [h]
        | some info =>
          simp only [h, true_and]
          constructor
          · intro _
            exact ⟨el, info, rfl, h⟩
          · intro _
            rfl
  · intro hn
    have : (isActive && ctrlPressed) = false := by
      cases isActive <;> cases ctrlPressed <;> simp_all
    simp [contextMenuHandler, this]
  · intro el hel hnone
    subst hel
    cases isActive <;> cases ctrlPressed <;> simp [contextMenuHandler, hnone]

/-- C6 witness: inactive state allows the default menu; active state with a
class-less target also allows it. -/
theorem contextMenuHandler_spec_witness :
    contextMenuHandler false true fmtNil (some elDiv) = ⟨false, none⟩ ∧
    contextMenuHandler true true fmtNil (some elNoClass) = ⟨false, none⟩ :=
  ⟨(contextMenuHandler_spec false true fmtNil (some elDiv)).2.1 (by simp),
   (contextMenuHandler_spec true true fmtNil (some elNoClass)).2.2 elNoClass rfl rfl⟩

/-- C10: whenever the pointer-move handler shows the tooltip, its text is
the fixed hint line, a newline, then the configured tooltip formatter's
output — never the bare formatter output. -/
theorem mouseMoveTooltip_hint (isActive ctrlPressed : Bool)
    (formatTooltip : ElementInfo → JSString) (target : Option HTMLElement)
    (text : JSString) :
    mouseMoveTooltip isActive ctrlPressed formatTooltip target = some text →
    ∃ el info, target = some el ∧ getElementInfo el = some info ∧
      text = hintLine ++ "\n".data ++ formatTooltip info ∧
      text ≠ formatTooltip info := by
  intro h
  simp only [mouseMoveTooltip] at h
  by_cases hac : (isActive && ctrlPressed) = true
  · rw [hac] at h
    simp only [Bool.not_true, Bool.false_eq_true, if_false] at h
    cases target with
    | none => cases h
    | some el =>
      cases hi : getElementInfo el with
      | none => simp only [hi] at h; cases h
      | some info =>
        simp only [hi] at h
        have htext := (Option.some.inj h).symm
        refine ⟨el, info, rfl, hi, htext, ?_⟩
        rw [htext]
        intro heq
        have hlen := congrArg List.length heq
        simp only [List.length_append] at hlen
        have : hintLine.length = 14 := rfl
        omega
  · rw [Bool.not_eq_true] at hac
    rw [hac] at h
    cases h

/-- C10 witness: a concrete shown tooltip under the trivial formatter. -/
theorem mouseMoveTooltip_hint_witness :
    ∃ el info, some elDiv = some el ∧ getElementInfo el = some info ∧
      textW = hintLine ++ "\n".data ++ fmtNil info ∧
      textW ≠ fmtNil info :=
  mouseMoveTooltip_hint true true fmtNil (some elDiv) textW (by rfl)

/-- Occurrence of a pattern nowhere in a string, from a bounded check. -/
theorem no_occurrence_of_bounded (pat s : JSString) (hne : pat ≠ [])
    (h : ∀ i, i ≤ s.length → isPre pat (s.drop i) = false) :
    ∀ i, ¬∃ t, s.drop i = pat ++ t := by
  intro i hex
  obtain ⟨t, ht⟩ := hex
  by_cases hi : i ≤ s.length
  · have htrue := (isPre_iff pat (s.drop i)).mpr ⟨t, ht⟩
    rw [h i hi] at htrue
    cases htrue
  · have hdrop : s.drop i = [] := List.drop_eq_nil_of_le (by omega)
    rw [hdrop] at ht
    exact hne (List.append_eq_nil.mp ht.symm).1

/-- C3: if the file name contains a `/src/` segment, the normalized path is
everything from the first such segment onward (so it starts with `src/`);
otherwise it is the final path component (a suffix containing no `/`,
either the whole string or what follows a `/`). -/
theorem normalizeFilePath_spec (s : JSString) :
    (∀ i, (∃ t, s.drop i = srcPat ++ t) →
      (∀ j, j < i → ¬∃ t, s.drop j = srcPat ++ t) →
      normalizeFilePath s = s.drop (i + 1) ∧
      ∃ t, normalizeFilePath s = "src/".data ++ t) ∧
    ((∀ i, ¬∃ t, s.drop i = srcPat ++ t) →
      (∃ t, s = t ++ normalizeFilePath s) ∧
      '/' ∉ normalizeFilePath s ∧
      (normalizeFilePath s = s ∨ ∃ t, s = t ++ '/' :: normalizeFilePath s)) := by
  constructor
  · intro i hocc hmin
    have hidx : indexOfAux srcPat s = some i := by
      cases h : indexOfAux srcPat s with
      | none => exact absurd hocc (indexOfAux_none srcPat s h i)
      | some i' =>
        obtain ⟨hocc', hmin'⟩ := indexOfAux_some srcPat s i' h
        rcases Nat.lt_trichotomy i' i with hlt | heq | hgt
        · exact absurd hocc' (hmin i' hlt)
        · rw [heq]
        · exact absurd hocc (hmin' i hgt)
    have hnorm : normalizeFilePath s = s.drop (i + 1) := by
      simp [normalizeFilePath, hidx]
    obtain ⟨t, ht⟩ := hocc
    refine ⟨hnorm, t, ?_⟩
    have hsplit : s.drop (i + 1) = List.drop 1 (s.drop i) := by
      rw [List.drop_drop, Nat.add_comm]
    rw [hnorm, hsplit, ht]
    rfl
  · intro hno
    have hidx : indexOfAux srcPat s = none := by
      cases h : indexOfAux srcPat s with
      | none => rfl
      | some i =>
        obtain ⟨hocc, _⟩ := indexOfAux_some srcPat s i h
        exact absurd hocc (hno i)
    cases hlast : lastIndexOf '/' s with
    | none =>
      have hnorm : normalizeFilePath s = s := by
        simp [normalizeFilePath, hidx, hlast]
      rw [hnorm]
      exact ⟨⟨[], rfl⟩, lastIndexOf_none '/' s hlast, Or.inl rfl⟩
    | some j =>
      obtain ⟨hdrop, hnot⟩ := lastIndexOf_some '/' s j hlast
      have hnorm : normalizeFilePath s = s.drop (j + 1) := by
        simp [normalizeFilePath, hidx, hlast]
      rw [hnorm]
      refine ⟨⟨s.take (j + 1), (List.take_append_drop (j + 1) s).symm⟩,
        hnot, Or.inr ⟨s.take j, ?_⟩⟩
      conv_lhs => rw [← List.take_append_drop j s]
      rw [hdrop]

/-- C3 witness: `a/src/b.tsx` normalizes from its `/src/` segment onward;
`a/b.tsx` normalizes to its final component. -/
theorem normalizeFilePath_spec_witness :
    (normalizeFilePath pathWithSrc = pathWithSrc.drop 2 ∧
      ∃ t, normalizeFilePath pathWithSrc = "src/".data ++ t) ∧
    ((∃ t, pathNoSrc = t ++ normalizeFilePath pathNoSrc) ∧
      '/' ∉ normalizeFilePath pathNoSrc ∧
      (normalizeFilePath pathNoSrc = pathNoSrc ∨
        ∃ t, pathNoSrc = t ++ '/' :: normalizeFilePath pathNoSrc)) := by
  constructor
  · exact (normalizeFilePath_spec pathWithSrc).1 1 ⟨"b.tsx".data, rfl⟩
      (fun j hj => by
        have hj0 : j = 0 := by omega
        subst hj0
        rintro ⟨t, ht⟩
        exact absurd ((isPre_iff srcPat (pathWithSrc.drop 0)).mpr ⟨t, ht⟩)
          (by decide))
  · exact (normalizeFilePath_spec pathNoSrc).2
      (no_occurrence_of_bounded srcPat pathNoSrc (by decide) (by decide))

/-- C2 counterexample: in the chain `nodeA` (debug file `A`, no name) then
`nodeB` (debug file `B`, named `Foo`), the first ancestor exposing debug
info is `nodeA`, yet the extracted `filePath` is `B`, not `A`: each later
debug source overwrites the earlier one until the walk stops. -/
theorem getReactSourceInfo_not_first_debug_cex :
    chainC2 0 = some nodeA ∧
    nodeA.debugSource = some ⟨some "A".data, some 1⟩ ∧
    normalizeFilePath "A".data = "A".data ∧
    (getReactSourceInfo elemC2).filePath = some "B".data ∧
    (getReactSourceInfo elemC2).lineNumber = some "2".data ∧
    ("B".data : JSString) ≠ "A".data := by
  refine ⟨rfl, rfl, rfl, rfl, rfl, by decide⟩

/-- `processDebugSource` applies exactly the node's debug contribution. -/
theorem processDebugSource_eq (src : Option DebugSource) (acc : SourceInfo) :
    processDebugSource src acc =
      match debugContrib src with
      | some c => { acc with filePath := some c.1, lineNumber := c.2 }
      | none => acc := by
  cases src with
  | none => rfl
  | some source =>
    cases hf : source.fileName with
    | none => simp [processDebugSource, debugContrib, hf]
    | some f =>
      by_cases hemp : f.isEmpty = true
      · simp [processDebugSource, debugContrib, hf, hemp]
      · simp [processDebugSource, debugContrib, hf, hemp]

/-- `processType` keeps an existing component name and otherwise applies
exactly the node's name contribution. -/
theorem processType_componentName (t : Option FiberType) (acc : SourceInfo) :
    (processType t acc).componentName =
      match acc.componentName with
      | some nm => some nm
      | none => nameContrib t := by
  cases hcn : acc.componentName with
  | some nm => exact processType_componentName_some t acc nm hcn
  | none =>
    cases t with
    | none => simp [processType, nameContrib, hcn]
    | some ty =>
      cases ty with
      | str s =>
        by_cases ht : typeTruthy (FiberType.str s) = true <;>
          simp [processType, nameContrib, typeNameOf, ht, hcn]
      | named d n =>
        cases hj : jsOrStr d n with
        | none =>
          simp [processType, nameContrib, typeTruthy, typeNameOf, hj, hcn]
        | some nm =>
          by_cases hemp : nm.isEmpty = true <;>
            simp [processType, nameContrib, typeTruthy, typeNameOf, isStrType,
              hj, hcn, hemp]

/-- One walk step: component name is first-writer-wins. -/
theorem processFiber_componentName (fb : FiberNode) (acc : SourceInfo) :
    (processFiber fb acc).componentName =
      match acc.componentName with
      | some nm => some nm
      | none => nameContrib fb.type := by
  rw [processFiber, processType_componentName, processDebugSource_componentName]

/-- One walk step: file path and line number are last-writer-wins. -/
theorem processFiber_filePath (fb : FiberNode) (acc : SourceInfo) :
    (processFiber fb acc).filePath =
      (match debugContrib fb.debugSource with
       | some c => some c.1
       | none => acc.filePath) ∧
    (processFiber fb acc).lineNumber =
      (match debugContrib fb.debugSource with
       | some c => c.2
       | none => acc.lineNumber) := by
  constructor
  · rw [processFiber, (processType_filePath fb.type _).1, processDebugSource_eq]
    cases hd : debugContrib fb.debugSource <;> simp [hd]
  · rw [processFiber, (processType_filePath fb.type _).2, processDebugSource_eq]
    cases hd : debugContrib fb.debugSource <;> simp [hd]

/-- The walk visits some prefix of the chain (of length at most the fuel,
all entries present) and its final fields are the first name contribution
and the last debug contribution of that prefix, seeded by the accumulator. -/
theorem walkFiber_window (chain : Nat → Option FiberNode) :
    ∀ (fuel i : Nat) (acc : SourceInfo),
      ∃ k, k ≤ fuel ∧ (∀ j, j < k → (chain (i + j)).isSome = true) ∧
        (walkFiber chain i fuel acc).componentName =
          (match acc.componentName with
           | some nm => some nm
           | none => firstNameFrom chain i k) ∧
        (walkFiber chain i fuel acc).filePath =
          (match lastDebugFrom chain i k with
           | some c => some c.1
           | none => acc.filePath) ∧
        (walkFiber chain i fuel acc).lineNumber =
          (match lastDebugFrom chain i k with
           | some c => c.2
           | none => acc.lineNumber) := by
  intro fuel
  induction fuel with
  | zero =>
    intro i acc
    refine ⟨0, Nat.le_refl 0, fun j hj => absurd hj (Nat.not_lt_zero j),
      ?_, rfl, rfl⟩
    cases hcn : acc.componentName <;> simp [walkFiber, hcn, firstNameFrom]
  | succ n ih =>
    intro i acc
    cases hc : chain i with
    | none =>
      refine ⟨0, Nat.zero_le _, fun j hj => absurd hj (Nat.not_lt_zero j),
        ?_, ?_, ?_⟩
      · simp only [walkFiber, hc]
        cases hcn : acc.componentName <;> simp [hcn, firstNameFrom]
      · simp only [walkFiber, hc]
        rfl
      · simp only [walkFiber, hc]
        rfl
    | some fb =>
      by_cases hb : bothFound (processFiber fb acc) = true
      · have hwalk : walkFiber chain i (n + 1) acc = processFiber fb acc := by
          simp only [walkFiber, hc]
          rw [if_pos hb]
        refine ⟨1, by omega, ?_, ?_, ?_, ?_⟩
        · intro j hj
          have hj0 : j = 0 := by omega
          subst hj0
          rw [Nat.add_zero, hc]
          rfl
        · rw [hwalk, processFiber_componentName]
          cases hcn : acc.componentName with
          | some nm => rfl
          | none =>
            simp only [firstNameFrom, nodeName, hc]
            cases hcc : nameContrib fb.type <;> simp [hcc]
        · rw [hwalk, (processFiber_filePath fb acc).1]
          simp only [lastDebugFrom, nodeDebug, hc]
        · rw [hwalk, (processFiber_filePath fb acc).2]
          simp only [lastDebugFrom, nodeDebug, hc]
      · have hwalk : walkFiber chain i (n + 1) acc =
            walkFiber chain (i + 1) n (processFiber fb acc) := by
          simp only [walkFiber, hc]
          rw [if_neg hb]
        obtain ⟨k, hk, hsome, hcn, hfp, hln⟩ := ih (i + 1) (processFiber fb acc)
        refine ⟨k + 1, by omega, ?_, ?_, ?_, ?_⟩
        · intro j hj
          cases j with
          | zero => rw [Nat.add_zero, hc]; rfl
          | succ m =>
            have hm := hsome m (by omega)
            have harr : i + (m + 1) = (i + 1) + m := by omega
            rw [harr]
            exact hm
        · rw [hwalk, hcn, processFiber_componentName]
          cases hacc : acc.componentName with
          | some nm => simp
          | none =>
            simp only [firstNameFrom, nodeName, hc]
        · rw [hwalk, hfp, (processFiber_filePath fb acc).1]
          cases hld : lastDebugFrom chain (i + 1) k with
          | some c => simp [lastDebugFrom, hld]
          | none =>
            simp only [lastDebugFrom, hld, nodeDebug, hc]
        · rw [hwalk, hln, (processFiber_filePath fb acc).2]
          cases hld : lastDebugFrom chain (i + 1) k with
          | some c => simp [lastDebugFrom, hld]
          | none =>
            simp only [lastDebugFrom, hld, nodeDebug, hc]

/-- C2 (amended): the extraction walk visits a prefix of the ancestor chain
(at most 20 entries, all present); its `componentName` is the name of the
FIRST visited ancestor whose component identity is a named non-primitive
construct, while `filePath` and `lineNumber` come from the LAST visited
ancestor exposing debug info with a non-empty file name, since each such
ancestor overwrites the previous values. -/
theorem getReactSourceInfo_first_name_last_debug
    (cls : Option JSString) (tag : JSString) (chain : Nat → Option FiberNode) :
    ∃ k, k ≤ 20 ∧ (∀ j, j < k → (chain j).isSome = true) ∧
      (getReactSourceInfo ⟨cls, tag, some chain⟩).componentName =
        firstNameFrom chain 0 k ∧
      (getReactSourceInfo ⟨cls, tag, some chain⟩).filePath =
        Option.map Prod.fst (lastDebugFrom chain 0 k) ∧
      (getReactSourceInfo ⟨cls, tag, some chain⟩).lineNumber =
        Option.bind (lastDebugFrom chain 0 k) Prod.snd := by
  obtain ⟨k, hk, hsome, hcn, hfp, hln⟩ := walkFiber_window chain 20 0 emptySourceInfo
  refine ⟨k, hk, fun j hj => by simpa using hsome j hj, ?_, ?_, ?_⟩
  · exact hcn
  · rw [show getReactSourceInfo ⟨cls, tag, some chain⟩ =
      walkFiber chain 0 20 emptySourceInfo from rfl, hfp]
    cases hld : lastDebugFrom chain 0 k <;> simp [hld, emptySourceInfo]
  · rw [show getReactSourceInfo ⟨cls, tag, some chain⟩ =
      walkFiber chain 0 20 emptySourceInfo from rfl, hln]
    cases hld : lastDebugFrom chain 0 k <;> simp [hld, emptySourceInfo]

/-- C2 witness: on the counterexample chain the extracted fields are the
first name contribution and the last debug contribution of the visited
prefix. -/
theorem getReactSourceInfo_first_name_last_debug_witness :
    ∃ k, k ≤ 20 ∧ (∀ j, j < k → (chainC2 j).isSome = true) ∧
      (getReactSourceInfo elemC2).componentName = firstNameFrom chainC2 0 k ∧
      (getReactSourceInfo elemC2).filePath =
        Option.map Prod.fst (lastDebugFrom chainC2 0 k) ∧
      (getReactSourceInfo elemC2).lineNumber =
        Option.bind (lastDebugFrom chainC2 0 k) Prod.snd :=
  getReactSourceInfo_first_name_last_debug (some "x".data) "DIV".data chainC2

/-- C5 counterexample: starting from an absent storage key, toggling twice
returns the original enabled state (`false`) but leaves `"false"` persisted
where nothing was persisted before, so the stored value changed. -/
theorem toggleDebugMode_twice_storage_cex :
    stNone.storage = none ∧
    (toggleDebugMode (toggleDebugMode stNone).1).2 = isDebugEnabled stNone.storage ∧
    (toggleDebugMode (toggleDebugMode stNone).1).1.storage = some "false".data ∧
    (toggleDebugMode (toggleDebugMode stNone).1).1.storage ≠ stNone.storage := by
  refine ⟨rfl, rfl, rfl, by decide⟩

/-- C5 (amended): a single `toggle` reads the persisted flag, negates it,
persists the negation and returns it; toggling twice returns the original
enabled state and restores the original enabled *flag*, and restores the
stored value itself whenever it was the canonical `"true"` or `"false"`. -/
theorem toggleDebugMode_spec (st : DebugState) :
    (toggleDebugMode st).2 = !isDebugEnabled st.storage ∧
    (toggleDebugMode st).1.storage =
      some (boolToChars (!isDebugEnabled st.storage)) ∧
    (toggleDebugMode st).1.isActive = !isDebugEnabled st.storage ∧
    (toggleDebugMode (toggleDebugMode st).1).2 = isDebugEnabled st.storage ∧
    isDebugEnabled (toggleDebugMode (toggleDebugMode st).1).1.storage =
      isDebugEnabled st.storage ∧
    ((st.storage = some "true".data ∨ st.storage = some "false".data) →
      (toggleDebugMode (toggleDebugMode st).1).1.storage = st.storage) := by
  obtain ⟨stor, act⟩ := st
  by_cases hb : isDebugEnabled stor = true
  · have hst : stor = some "true".data := by simpa [isDebugEnabled] using hb
    subst hst
    exact ⟨rfl, rfl, rfl, rfl, rfl, fun _ => rfl⟩
  · have hb' : isDebugEnabled stor = false := by simpa using hb
    refine ⟨rfl, rfl, rfl, ?_, ?_, ?_⟩
    · simp only [toggleDebugMode, setDebugEnabled, hb']
      rfl
    · simp only [toggleDebugMode, setDebugEnabled, hb']
      rfl
    · intro hor
      rcases hor with h1 | h2
      · have h1' : stor = some "true".data := h1
        rw [h1'] at hb'
        simp [isDebugEnabled] at hb'
      · have h2' : stor = some "false".data := h2
        subst h2'
        rfl

/-- C5 witness: from the canonical stored value `"true"`, toggling twice
restores the stored value. -/
theorem toggleDebugMode_spec_witness :
    (toggleDebugMode (toggleDebugMode ⟨some "true".data, true⟩).1).1.storage =
      some "true".data :=
  (toggleDebugMode_spec ⟨some "true".data, true⟩).2.2.2.2.2 (Or.inl rfl)
